import Mathlib

/-!
# Verification of the weather-extension resilience layer

Shallow embedding of the cache / credential-pool / orchestrator subsystem of
the `weather-extension` repository, together with proofs of the spec's
testable properties.

* `ApiKeyManager` embeds `apps/backend/src/utils/apiKeyManager.ts`.
* `ClientCache` operations embed the `ClientCache` class (the variant with a
  forecast category, and the extension variant in `apps/extension/src/utils/cache.ts`).
* `fetchWithRetry` embeds the retry loop in `apps/extension/src/utils/api.ts`.
* `weatherGET` / `forecastGET` embed the outcome-classification part of the
  backend route handlers.

Timestamps are modelled as natural numbers of milliseconds (`Date.now()` is
passed in explicitly as a `now` argument); JavaScript `Map` objects are
modelled as association lists in insertion order, which is the iteration
order JavaScript guarantees.
-/

namespace Weather

/-! ## Credential pool: `apps/backend/src/utils/apiKeyManager.ts` -/

/-- One record of the pool, mirroring the `ApiKeyStats` interface. -/
structure ApiKeyStats where
  key : String
  requests : Nat
  lastUsed : Nat
  errors : Nat
  isActive : Bool
deriving DecidableEq, Repr, Inhabited

/-- The mutable state of `class ApiKeyManager`. -/
structure ApiKeyManager where
  keys : List ApiKeyStats
  currentIndex : Nat
deriving DecidableEq, Repr

/-- `maxErrors = 5` in the source. -/
def maxErrors : Nat := 5

/-- `initializeKeys`: every configured key starts with zero counters, active. -/
def initManager (keyArray : List String) : ApiKeyManager :=
  { keys := keyArray.map fun k =>
      { key := k, requests := 0, lastUsed := 0, errors := 0, isActive := true }
    currentIndex := 0 }

/-- `reactivateAllKeys`: sets every record's `isActive = true`, `errors = 0`. -/
def reactivateAllKeys (m : ApiKeyManager) : ApiKeyManager :=
  { m with keys := m.keys.map fun ks => { ks with isActive := true, errors := 0 } }

/-- The `while (attempts < maxAttempts)` loop of `getNextKey`: starting at
`m.currentIndex`, scan for an active record, advancing the cursor modulo the
pool length; `fuel` is the remaining number of allowed attempts
(`maxAttempts - attempts`). On a hit the record's `requests` is bumped,
`lastUsed` stamped with `now`, and the cursor advanced past it. -/
def getNextKeyLoop (now : Nat) : Nat → ApiKeyManager → Option (String × ApiKeyManager)
  | 0, _ => none
  | fuel + 1, m =>
    match m.keys.get? m.currentIndex with
    | none => none
    | some ks =>
      if ks.isActive then
        some (ks.key,
          { keys := m.keys.set m.currentIndex
              { ks with requests := ks.requests + 1, lastUsed := now }
            currentIndex := (m.currentIndex + 1) % m.keys.length })
      else
        getNextKeyLoop now fuel
          { m with currentIndex := (m.currentIndex + 1) % m.keys.length }

/-- `getNextKey`: throws (`none`) on an empty pool; otherwise one full scan,
and if the scan finds no active record, a reactivation sweep followed by one
more scan (the source recurses into `getNextKey`, which after the sweep
succeeds on its first loop iteration). -/
def getNextKey (now : Nat) (m : ApiKeyManager) : Option (String × ApiKeyManager) :=
  if m.keys.length = 0 then none
  else
    match getNextKeyLoop now m.keys.length m with
    | some r => some r
    | none =>
      let m2 := reactivateAllKeys m
      getNextKeyLoop now m2.keys.length m2

/-- `recordSuccess`: reset the matching record's error count to 0
(`keys.find(k => k.key === key)` finds the first match). -/
def recordSuccess (key : String) (m : ApiKeyManager) : ApiKeyManager :=
  match m.keys.findIdx? (fun ks => ks.key = key) with
  | none => m
  | some i =>
    match m.keys.get? i with
    | none => m
    | some ks => { m with keys := m.keys.set i { ks with errors := 0 } }

/-- `recordError`: increment the matching record's error count and deactivate
it once the count reaches `maxErrors`. -/
def recordError (key : String) (m : ApiKeyManager) : ApiKeyManager :=
  match m.keys.findIdx? (fun ks => ks.key = key) with
  | none => m
  | some i =>
    match m.keys.get? i with
    | none => m
    | some ks =>
      let e := ks.errors + 1
      let ks2 :=
        if maxErrors ≤ e then { ks with errors := e, isActive := false }
        else { ks with errors := e }
      { m with keys := m.keys.set i ks2 }

/-- `getActiveKeyCount` (also the `activeKeys` field of `getStats`). -/
def getActiveKeyCount (m : ApiKeyManager) : Nat :=
  (m.keys.filter fun ks => ks.isActive).length

/-- `getStats().totalRequests`. -/
def totalRequests (m : ApiKeyManager) : Nat :=
  (m.keys.map fun ks => ks.requests).sum

/-- Well-formedness that every reachable pool state enjoys: nonempty key list
and in-range cursor (the cursor is 0 at construction and always updated
modulo the length). -/
def WF (m : ApiKeyManager) : Prop :=
  m.keys ≠ [] ∧ m.currentIndex < m.keys.length

/-! ## Extension-side rotation: `apps/extension/src/utils/apiKeyManager.ts` -/

/-- `getNextApiKey` of the extension: plain modulo rotation over the parsed
key list; throws (`none`) only when the list is empty. State is the module
level `currentIndex`. -/
def extGetNextApiKey (keys : List String) (currentIndex : Nat) :
    Option (String × Nat) :=
  if keys.length = 0 then none
  else some (keys.getD currentIndex "", (currentIndex + 1) % keys.length)

/-! ## Client cache: the `ClientCache` class

One cache category (`weatherCache`, `forecastCache`, `geocodeCache` are
structurally identical) is a JavaScript `Map` from string keys to entries,
modelled as an association list in insertion order. -/

/-- `CacheEntry<T>`: payload, `timestamp` (ms), `ttl` (ms). -/
structure CacheEntry (α : Type) where
  data : α
  timestamp : Nat
  ttl : Nat
deriving DecidableEq, Repr

/-- One cache category. -/
abbrev CacheMap (α : Type) := List (String × CacheEntry α)

/-- The relevant part of `CacheConfig`. -/
structure CacheConfig where
  weatherTTL : Nat
  maxSize : Nat
deriving DecidableEq, Repr

/-- `Map.get k`. -/
def mapGet {α : Type} (l : CacheMap α) (k : String) : Option (CacheEntry α) :=
  (l.find? fun p => p.1 = k).map (·.2)

/-- `Map.set k e`: overwrite in place when the key is present (JavaScript
keeps the original insertion position), append otherwise. -/
def mapSet {α : Type} (l : CacheMap α) (k : String) (e : CacheEntry α) :
    CacheMap α :=
  if l.any (fun p => p.1 = k) then
    l.map fun p => if p.1 = k then (k, e) else p
  else
    l ++ [(k, e)]

/-- `Map.delete k`. -/
def mapDelete {α : Type} (l : CacheMap α) (k : String) : CacheMap α :=
  l.filter fun p => ¬ p.1 = k

/-- The keys currently stored, in insertion order. -/
def mapKeys {α : Type} (l : CacheMap α) : List String := l.map (·.1)

/-- The `for (const [k, entry] of cache.entries())` scan of `setWeather` that
computes the key of the entry with the smallest timestamp: the accumulator
holds the best `(oldestKey, oldestTime)` so far and is replaced only on a
strictly smaller timestamp, so the first entry attaining the minimum wins. -/
def oldestScan {α : Type} : CacheMap α → Option (String × Nat) → Option (String × Nat)
  | [], acc => acc
  | p :: rest, acc =>
    match acc with
    | none => oldestScan rest (some (p.1, p.2.timestamp))
    | some (ok, ot) =>
      if p.2.timestamp < ot then oldestScan rest (some (p.1, p.2.timestamp))
      else oldestScan rest (some (ok, ot))

/-- The `oldestKey` computed by the eviction scan (`undefined` = `none`;
the initial `oldestTime = Infinity` means the first entry always replaces
the empty accumulator). -/
def oldestKey {α : Type} (l : CacheMap α) : Option String :=
  (oldestScan l none).map (·.1)

/-- `setWeather(key, data)` of the `ClientCache` with a forecast category:
when `size >= maxSize`, the least-recently-touched entry is evicted
(whether or not `key` itself is already present), then the entry is written
with a fresh timestamp and the category's configured TTL. The eviction is
guarded by `if (oldestKey)`, a JavaScript *truthiness* test on
`string | undefined`: it skips the delete both when `oldestKey` is
`undefined` (empty map) and when it is the empty string `""`. -/
def setWeather {α : Type} (cfg : CacheConfig) (now : Nat) (k : String) (d : α)
    (l : CacheMap α) : CacheMap α :=
  let l1 :=
    if cfg.maxSize ≤ l.length then
      match oldestKey l with
      | some ok => if ok = "" then l else mapDelete l ok
      | none => l
    else l
  mapSet l1 k { data := d, timestamp := now, ttl := cfg.weatherTTL }

/-- `getWeather(key)`: absent → `null`; expired (`now - timestamp > ttl`) →
delete and `null`; otherwise the entry's timestamp is rewritten to `now`
("mark as most recently used") and the data returned. Returns the result
together with the updated category. -/
def getWeather {α : Type} (now : Nat) (k : String) (l : CacheMap α) :
    Option α × CacheMap α :=
  match mapGet l k with
  | none => (none, l)
  | some e =>
    if e.ttl < now - e.timestamp then (none, mapDelete l k)
    else
      (some e.data,
        l.map fun p =>
          if p.1 = k then (p.1, { p.2 with timestamp := now }) else p)

/-- `cleanup()`: removes every entry with `now - timestamp > ttl`. -/
def cleanup {α : Type} (now : Nat) (l : CacheMap α) : CacheMap α :=
  l.filter fun p => ¬ p.2.ttl < now - p.2.timestamp

/-! ## Cache key derivation -/

/-- Floor of a rational, computed with flooring integer division
(the denominator of a `Rat` is positive). -/
def ratFloor (q : ℚ) : Int := Int.fdiv q.num q.den

/-- Models JavaScript's `Number.toFixed(d)` on exact (non-tie, in-range)
inputs: the rounded value scaled by `10 ^ d`, i.e. round-half-up of
`x * 10 ^ d`. Two coordinates produce the same formatted string iff they
produce the same scaled integer. -/
def toFixedScaled (d : Nat) (x : ℚ) : Int :=
  ratFloor (x * (10 : ℚ) ^ d + 1 / 2)

/-- Models `String.prototype.toLowerCase`: lower-case every character. -/
def strToLower (s : String) : String := String.mk (s.data.map Char.toLower)

/-- Models `String.prototype.trim`: strip leading and trailing whitespace. -/
def strTrim (s : String) : String :=
  String.mk
    (((s.data.dropWhile Char.isWhitespace).reverse.dropWhile Char.isWhitespace).reverse)

/-- `getWeatherKey` of `apps/extension/src/utils/cache.ts`:
`weather_${city.toLowerCase().trim()}_${units}`. -/
def extGetWeatherKey (city units : String) : String :=
  "weather_" ++ strTrim (strToLower city) ++ "_" ++ units

/-- `getGeocodeKey` of `apps/extension/src/utils/cache.ts`:
`geocode_${lat.toFixed(3)}_${lon.toFixed(3)}`. -/
def extGetGeocodeKey (lat lon : ℚ) : String :=
  "geocode_" ++ toString (toFixedScaled 3 lat) ++ "_" ++ toString (toFixedScaled 3 lon)

/-- `getWeatherKey` of the `ClientCache` with a forecast category:
`weather-${city}-${units}` — the city is used verbatim. -/
def p4GetWeatherKey (city units : String) : String :=
  "weather-" ++ city ++ "-" ++ units

/-- `getGeocodeKey` of the `ClientCache` with a forecast category:
`geocode-${Number(lat).toFixed(4)}-${Number(lon).toFixed(4)}`. -/
def p4GetGeocodeKey (lat lon : ℚ) : String :=
  "geocode-" ++ toString (toFixedScaled 4 lat) ++ "-" ++ toString (toFixedScaled 4 lon)

/-! ## Retry loop: `fetchWithRetry` in `apps/extension/src/utils/api.ts` -/

/-- The part of a `fetch` `Response` the retry loop can observe: `secureFetch`
resolves with the response for every HTTP status (it never throws on a
received response) and rejects only on transport-level failure
(network error, or abort by the 10 s timeout). -/
structure Response where
  status : Nat
deriving DecidableEq, Repr

/-- `MAX_RETRIES = 3` in `SECURITY_CONFIG`. -/
def MAX_RETRIES : Nat := 3

/-- The behaviour of the network across successive attempts: attempt `i`
either yields a received response (`some r`) or rejects (`none`). -/
def Oracle := Nat → Option Response

/-- `fetchWithRetry(url, options, retries)`: try `secureFetch`; on rejection,
if `retries > 0`, wait `2 ^ (MAX_RETRIES - retries) * 1000` ms and recurse
with `retries - 1`, else surface the error. `attempt` numbers the
`secureFetch` invocations; the returned list records the backoff delays
slept, in order. -/
def fetchWithRetry (oracle : Oracle) : Nat → Nat → Except Unit Response × List Nat
  | attempt, 0 =>
    match oracle attempt with
    | some r => (Except.ok r, [])
    | none => (Except.error (), [])
  | attempt, r + 1 =>
    match oracle attempt with
    | some resp => (Except.ok resp, [])
    | none =>
      let d := 2 ^ (MAX_RETRIES - (r + 1)) * 1000
      let rest := fetchWithRetry oracle (attempt + 1) r
      (rest.1, d :: rest.2)

/-! ## Backend route handlers (outcome classification)

`GET` of `app/api/weather/route.ts` and `app/api/forecast/route.ts`, embedded
as a function of the pre-request checks, the acquired key, and the upstream
outcome. The model records the pool calls the handler makes (the events) and
the HTTP result it returns, including the `Cache-Control` lifetime it
attaches (`none` = no caching directive / `no-cache` headers). -/

/-- What the upstream `fetch` did on a given request: `thrown aborted` is the
catch path (`AbortError` when the 10 s timeout fired, any other rejection
otherwise); `resp status valid` is a received response, where `valid` is the
structural validation verdict on the parsed body (weather: `data.main` and
`data.weather` present; forecast: `data.list` a present array). -/
inductive Upstream where
  | thrown (aborted : Bool)
  | resp (status : Nat) (valid : Bool)
deriving DecidableEq, Repr

/-- A call the route handler makes on the key manager. -/
inductive PoolEvent where
  | acquire (key : String)
  | success (key : String)
  | failure (key : String) (reason : String)
deriving DecidableEq, Repr

/-- Outcome of one route invocation. -/
structure RouteResult where
  status : Nat
  cacheSeconds : Option Nat
  events : List PoolEvent
deriving DecidableEq, Repr

/-- `response.ok`: status in the 2xx range. -/
def httpOk (s : Nat) : Bool := 200 ≤ s ∧ s < 300

/-- `GET` of the weather route: after the rate-limit check (`rateOk`) and
input validation (`inputOk`) pass, the handler acquires a key and classifies
the upstream outcome. Neither the 404 branch nor the catch path makes any
`recordError`/`recordSuccess` call; no branch attaches cache headers. -/
def weatherGET (rateOk inputOk : Bool) (key : String) (up : Upstream) :
    RouteResult :=
  if ¬ rateOk then { status := 429, cacheSeconds := none, events := [] }
  else if ¬ inputOk then { status := 400, cacheSeconds := none, events := [] }
  else
    let acq := [PoolEvent.acquire key]
    match up with
    | .thrown aborted =>
      { status := if aborted then 408 else 503, cacheSeconds := none, events := acq }
    | .resp s valid =>
      if s = 401 then
        { status := 503, cacheSeconds := none,
          events := acq ++ [.failure key "Invalid API key"] }
      else if s = 404 then
        { status := 404, cacheSeconds := none, events := acq }
      else if s = 429 then
        { status := 503, cacheSeconds := none,
          events := acq ++ [.failure key "Rate limit exceeded"] }
      else if s = 500 then
        { status := 503, cacheSeconds := none,
          events := acq ++ [.failure key "OpenWeather API error"] }
      else if ¬ httpOk s then
        { status := 503, cacheSeconds := none,
          events := acq ++ [.failure key ("HTTP " ++ toString s)] }
      else if ¬ valid then
        { status := 500, cacheSeconds := none,
          events := acq ++ [.failure key "Invalid response structure"] }
      else
        { status := 200, cacheSeconds := none, events := acq ++ [.success key] }

/-- `CACHE_CONFIG.ERROR_CACHE_DURATION = 300` (seconds) in the forecast route. -/
def ERROR_CACHE_DURATION : Nat := 300

/-- `CACHE_CONFIG.FORECAST_CACHE_DURATION = 3600` (seconds). -/
def FORECAST_CACHE_DURATION : Nat := 3600

/-- `GET` of the forecast route: same classification as the weather route,
except that the successful response carries `max-age=3600` cache headers and
the 404 response carries `max-age=300` ("Cache 404 responses briefly to
avoid hammering"); all other branches send no-cache headers. -/
def forecastGET (rateOk inputOk : Bool) (key : String) (up : Upstream) :
    RouteResult :=
  if ¬ rateOk then { status := 429, cacheSeconds := none, events := [] }
  else if ¬ inputOk then { status := 400, cacheSeconds := none, events := [] }
  else
    let acq := [PoolEvent.acquire key]
    match up with
    | .thrown aborted =>
      { status := if aborted then 408 else 503, cacheSeconds := none, events := acq }
    | .resp s valid =>
      if s = 401 then
        { status := 503, cacheSeconds := none,
          events := acq ++ [.failure key "Invalid API key"] }
      else if s = 404 then
        { status := 404, cacheSeconds := some ERROR_CACHE_DURATION, events := acq }
      else if s = 429 then
        { status := 503, cacheSeconds := none,
          events := acq ++ [.failure key "Rate limit exceeded"] }
      else if s = 500 then
        { status := 503, cacheSeconds := none,
          events := acq ++ [.failure key "OpenWeather API error"] }
      else if ¬ httpOk s then
        { status := 503, cacheSeconds := none,
          events := acq ++ [.failure key ("HTTP " ++ toString s)] }
      else if ¬ valid then
        { status := 500, cacheSeconds := none,
          events := acq ++ [.failure key "Invalid forecast data received"] }
      else
        { status := 200, cacheSeconds := some FORECAST_CACHE_DURATION,
          events := acq ++ [.success key] }

/-- Number of `acquire` events for `k` in a transcript. -/
def acquiresFor (k : String) (evs : List PoolEvent) : Nat :=
  (evs.filter fun e =>
    match e with
    | .acquire k' => k' = k
    | _ => false).length

/-- Number of outcome reports (`success` or `failure`) for `k` in a transcript. -/
def reportsFor (k : String) (evs : List PoolEvent) : Nat :=
  (evs.filter fun e =>
    match e with
    | .success k' => k' = k
    | .failure k' _ => k' = k
    | _ => false).length

/-- Did the upstream call throw (timeout/abort/transport/parse failure)? -/
def isThrown : Upstream → Bool
  | .thrown _ => true
  | .resp _ _ => false

/-- Did the upstream respond with HTTP 404? -/
def isNotFound : Upstream → Bool
  | .thrown _ => false
  | .resp s _ => s = 404

/-- Replay the outcome reports of a transcript against a pool: `success` runs
`recordSuccess`, `failure` runs `recordError`; `acquire` is the handler's own
`getNextKey` call, which never changes an error counter, so it is the
identity here. -/
def applyReports (m : ApiKeyManager) : List PoolEvent → ApiKeyManager
  | [] => m
  | .acquire _ :: rest => applyReports m rest
  | .success k :: rest => applyReports (recordSuccess k m) rest
  | .failure k _ :: rest => applyReports (recordError k m) rest

/-- The credential strings returned by `M` consecutive `getNextKey` calls. -/
def acquireList (now : Nat) : Nat → ApiKeyManager → List String
  | 0, _ => []
  | M + 1, m =>
    match getNextKey now m with
    | none => []
    | some (k, m') => k :: acquireList now M m'

/-- The sequence of cursor positions a round-robin walk of a pool of size `N`
visits: starting at `c`, the `i`-th acquisition uses index `(c + i) % N`. -/
def rrList (N c M : Nat) : List Nat :=
  (List.range M).map fun i => (c + i) % N

/-- Repeated `getWeather` lookups of the same key at the given times,
threading the cache state; returns the list of results and the final state. -/
def accessSeq {α : Type} (k : String) : List Nat → CacheMap α → List (Option α) × CacheMap α
  | [], l => ([], l)
  | t :: ts, l =>
    let r := getWeather t k l
    let rest := accessSeq k ts r.2
    (r.1 :: rest.1, rest.2)

/-- Every access time is within `ttl` of the previous one (`prev` is the
entry's current timestamp before the first access). -/
def gapsOk (ttl : Nat) : Nat → List Nat → Bool
  | _, [] => true
  | prev, t :: ts => decide (t - prev ≤ ttl) && gapsOk ttl t ts

/-- The concrete 2-credential pool of the self-healing scenario. -/
def poolTwo : ApiKeyManager := initManager ["keyA", "keyB"]

/-- `poolTwo` after 5 reported failures on each credential. -/
def poolBothDown : ApiKeyManager :=
  (recordError "keyB")^[5] ((recordError "keyA")^[5] poolTwo)

/-! ## Supporting lemmas -/

theorem toFixedScaled_3_lat :
    toFixedScaled 3 (23.81034 : ℚ) = 23810 ∧ toFixedScaled 3 (23.8103 : ℚ) = 23810 := by
  constructor <;> (norm_num [toFixedScaled, ratFloor]; decide)

theorem toFixedScaled_3_lon :
    toFixedScaled 3 (90.41256 : ℚ) = 90413 ∧ toFixedScaled 3 (90.4126 : ℚ) = 90413 := by
  constructor <;> (norm_num [toFixedScaled, ratFloor]; decide)

theorem toFixedScaled_4_lat :
    toFixedScaled 4 (23.81034 : ℚ) = 238103 ∧ toFixedScaled 4 (23.8103 : ℚ) = 238103 := by
  constructor <;> (norm_num [toFixedScaled, ratFloor]; decide)

theorem toFixedScaled_4_lon :
    toFixedScaled 4 (90.41256 : ℚ) = 904126 ∧ toFixedScaled 4 (90.4126 : ℚ) = 904126 := by
  constructor <;> (norm_num [toFixedScaled, ratFloor]; decide)

theorem mapSet_cons_ne {α : Type} (p : String × CacheEntry α) (t : CacheMap α)
    (k : String) (e : CacheEntry α) (h : ¬ p.1 = k) :
    mapSet (p :: t) k e = p :: mapSet t k e := by
  unfold mapSet
  by_cases ht : t.any (fun q => q.1 = k) = true <;> simp [h, ht]

theorem mapGet_mapSet_self {α : Type} (l : CacheMap α) (k : String) (e : CacheEntry α) :
    mapGet (mapSet l k e) k = some e := by
  induction l with
  | nil => simp [mapSet, mapGet, List.find?]
  | cons p t ih =>
    by_cases h : p.1 = k
    · unfold mapSet
      simp only [List.any_cons, decide_eq_true_eq, h, decide_eq_true_eq]
      simp [mapGet, List.find?, h]
    · rw [mapSet_cons_ne p t k e h]
      simpa [mapGet, List.find?, h] using ih

theorem mapGet_mapDelete_self {α : Type} (l : CacheMap α) (k : String) :
    mapGet (mapDelete l k) k = none := by
  unfold mapGet mapDelete
  have h : List.find? (fun p => decide (p.1 = k))
      (List.filter (fun p => decide ¬ p.1 = k) l) = none := by
    rw [List.find?_eq_none]
    intro p hp
    have := (List.mem_filter.mp hp).2
    simpa using this
  rw [h]
  rfl

/-- C4: TTL correctness. `getWeather` immediately after `setWeather` of the
same key (no time advance) returns the value just stored; and when the entry
under `k` is expired (`now - storedAt > ttl`), `getWeather` deletes it and
returns `none`, so an expired value is never returned. -/
theorem ttl_correct {α : Type} (cfg : CacheConfig) (now now' : Nat) (k : String)
    (d : α) (l : CacheMap α) (e : CacheEntry α) :
    (getWeather now k (setWeather cfg now k d l)).1 = some d ∧
    (mapGet l k = some e → e.ttl < now' - e.timestamp →
      getWeather now' k l = (none, mapDelete l k) ∧
      mapGet (mapDelete l k) k = none) := by
  constructor
  · unfold setWeather getWeather
    rw [mapGet_mapSet_self]
    simp
  · intro hget hexp
    refine ⟨?_, mapGet_mapDelete_self l k⟩
    unfold getWeather
    rw [hget]
    simp [hexp]

/-- Witness for `ttl_correct`: a one-entry cache whose entry was stored at
time 0 with a 10 ms TTL, read at time 11. -/
theorem ttl_correct_witness :
    (getWeather 5 "a" (setWeather ⟨10, 100⟩ 5 "a" (7 : Nat) [])).1 = some 7 ∧
    (mapGet [("a", ⟨(7 : Nat), 0, 10⟩)] "a" = some ⟨7, 0, 10⟩ →
      (10 : Nat) < 11 - 0 →
      getWeather 11 "a" [("a", ⟨(7 : Nat), 0, 10⟩)] =
        (none, mapDelete [("a", ⟨(7 : Nat), 0, 10⟩)] "a") ∧
      mapGet (mapDelete [("a", ⟨(7 : Nat), 0, 10⟩)] "a") "a" = none) := by
  exact ⟨(ttl_correct ⟨10, 100⟩ 5 11 "a" 7 [] ⟨7, 0, 10⟩).1,
    fun h1 h2 =>
      (ttl_correct ⟨10, 100⟩ 5 11 "a" 7 [("a", ⟨7, 0, 10⟩)] ⟨7, 0, 10⟩).2 h1 h2⟩

theorem length_mapSet_le {α : Type} (l : CacheMap α) (k : String) (e : CacheEntry α) :
    (mapSet l k e).length ≤ l.length + 1 := by
  unfold mapSet
  by_cases h : l.any (fun p => p.1 = k) = true <;> simp [h]

theorem length_mapSet_new {α : Type} (l : CacheMap α) (k : String) (e : CacheEntry α)
    (h : l.any (fun p => p.1 = k) = false) :
    (mapSet l k e).length = l.length + 1 := by
  unfold mapSet
  simp [h]

theorem oldestScan_cons_none {α : Type} (p : String × CacheEntry α) (t : CacheMap α) :
    oldestScan (p :: t) none = oldestScan t (some (p.1, p.2.timestamp)) := rfl

theorem oldestScan_cons_some {α : Type} (p : String × CacheEntry α) (t : CacheMap α)
    (ok : String) (ot : Nat) :
    oldestScan (p :: t) (some (ok, ot)) =
      if p.2.timestamp < ot then oldestScan t (some (p.1, p.2.timestamp))
      else oldestScan t (some (ok, ot)) := rfl

theorem oldestScan_isSome {α : Type} :
    ∀ (l : CacheMap α) (acc : Option (String × Nat)), acc.isSome →
      (oldestScan l acc).isSome := by
  intro l
  induction l with
  | nil => intro acc h; simpa [oldestScan] using h
  | cons p t ih =>
    intro acc h
    match acc, h with
    | some (ok, ot), _ =>
      rw [oldestScan_cons_some]
      by_cases hlt : p.2.timestamp < ot
      · rw [if_pos hlt]
        exact ih _ rfl
      · rw [if_neg hlt]
        exact ih _ rfl

theorem oldestKey_isSome {α : Type} (l : CacheMap α) (h : l ≠ []) :
    (oldestKey l).isSome := by
  match l with
  | p :: t =>
    unfold oldestKey oldestScan
    simpa using oldestScan_isSome t (some (p.1, p.2.timestamp)) rfl

theorem oldestScan_mem {α : Type} :
    ∀ (l : CacheMap α) (acc : Option (String × Nat)) (k : String) (ts : Nat),
      oldestScan l acc = some (k, ts) →
      (∃ p ∈ l, p.1 = k) ∨ acc = some (k, ts) := by
  intro l
  induction l with
  | nil => intro acc k ts h; right; simpa [oldestScan] using h
  | cons p t ih =>
    intro acc k ts h
    match acc with
    | none =>
      rw [oldestScan_cons_none] at h
      rcases ih _ _ _ h with ⟨q, hq, hqk⟩ | heq
      · exact Or.inl ⟨q, List.mem_cons_of_mem _ hq, hqk⟩
      · exact Or.inl ⟨p, List.mem_cons_self _ _, by injection heq with h2; injection h2⟩
    | some (ok, ot) =>
      rw [oldestScan_cons_some] at h
      by_cases hlt : p.2.timestamp < ot
      · rw [if_pos hlt] at h
        rcases ih _ _ _ h with ⟨q, hq, hqk⟩ | heq
        · exact Or.inl ⟨q, List.mem_cons_of_mem _ hq, hqk⟩
        · exact Or.inl ⟨p, List.mem_cons_self _ _, by injection heq with h2; injection h2⟩
      · rw [if_neg hlt] at h
        rcases ih _ _ _ h with ⟨q, hq, hqk⟩ | heq
        · exact Or.inl ⟨q, List.mem_cons_of_mem _ hq, hqk⟩
        · exact Or.inr heq

theorem oldestKey_mem {α : Type} (l : CacheMap α) (ok : String)
    (h : oldestKey l = some ok) : ∃ p ∈ l, p.1 = ok := by
  unfold oldestKey at h
  obtain ⟨⟨k, ts⟩, hscan, hk⟩ := Option.map_eq_some'.mp h
  rcases oldestScan_mem l none k ts hscan with hm | habs
  · subst hk
    exact hm
  · cases habs

theorem length_mapDelete_lt {α : Type} (l : CacheMap α) (ok : String)
    (h : ∃ p ∈ l, p.1 = ok) : (mapDelete l ok).length < l.length := by
  unfold mapDelete
  rw [List.length_filter_lt_length_iff_exists]
  obtain ⟨p, hp, hpk⟩ := h
  exact ⟨p, hp, by simpa using hpk⟩

theorem length_mapDelete_nodup {α : Type} :
    ∀ (l : CacheMap α) (ok : String), (mapKeys l).Nodup → (∃ p ∈ l, p.1 = ok) →
      (mapDelete l ok).length + 1 = l.length := by
  intro l
  induction l with
  | nil => intro ok _ h; obtain ⟨p, hp, _⟩ := h; cases hp
  | cons p t ih =>
    intro ok hnd hex
    have hnd' : (mapKeys t).Nodup := (List.nodup_cons.mp hnd).2
    by_cases hpk : p.1 = ok
    · have hnotin : ∀ q ∈ t, ¬ q.1 = ok := by
        intro q hq hqk
        have h1 : p.1 ∉ mapKeys t := (List.nodup_cons.mp (by simpa [mapKeys] using hnd)).1
        apply h1
        have h2 : q.1 ∈ mapKeys t := List.mem_map_of_mem _ hq
        rwa [hqk, ← hpk] at h2
      have : mapDelete t ok = t := by
        unfold mapDelete
        rw [List.filter_eq_self]
        intro q hq
        simpa using hnotin q hq
      unfold mapDelete
      simp only [List.filter_cons]
      rw [if_neg (by simpa using hpk)]
      show (List.filter _ t).length + 1 = t.length + 1
      rw [show List.filter (fun q => decide ¬ q.1 = ok) t = mapDelete t ok from rfl, this]
    · have hex' : ∃ q ∈ t, q.1 = ok := by
        obtain ⟨q, hq, hqk⟩ := hex
        rcases List.mem_cons.mp hq with rfl | hq'
        · exact absurd hqk hpk
        · exact ⟨q, hq', hqk⟩
      unfold mapDelete
      simp only [List.filter_cons]
      rw [if_pos (by simpa using hpk)]
      show ((List.filter _ t).length + 1) + 1 = t.length + 1
      rw [show List.filter (fun q => decide ¬ q.1 = ok) t = mapDelete t ok from rfl]
      rw [ih ok hnd' hex']

theorem any_mapDelete_false {α : Type} (l : CacheMap α) (ok k : String)
    (h : l.any (fun p => p.1 = k) = false) :
    (mapDelete l ok).any (fun p => p.1 = k) = false := by
  rw [Bool.eq_false_iff]
  intro hc
  obtain ⟨p, hp, hpk⟩ := List.any_eq_true.mp hc
  have hp' : p ∈ l := List.mem_of_mem_filter hp
  have : l.any (fun p => p.1 = k) = true := List.any_eq_true.mpr ⟨p, hp', hpk⟩
  rw [h] at this
  cases this

/-- C3 (amended): provided no stored key is the empty string (so the
truthiness eviction guard `if (oldestKey)` can pass), after any `setWeather`
the entry count stays within `maxSize` (for a positive `maxSize`, given it
held before), and a set of a *new* key at capacity evicts exactly one entry.
Two parts of the claim fail (see the counterexample): a set of an *already
present* key at capacity also evicts, and when the least-recently-touched
key is `""` the eviction is skipped and the bound can be exceeded. -/
theorem size_bound {α : Type} (cfg : CacheConfig) (now : Nat) (k : String)
    (d : α) (l : CacheMap α) (h1 : 1 ≤ cfg.maxSize) (h2 : l.length ≤ cfg.maxSize)
    (hkeys : ∀ p ∈ l, p.1 ≠ "") :
    (setWeather cfg now k d l).length ≤ cfg.maxSize ∧
    (l.length = cfg.maxSize → (mapKeys l).Nodup →
      l.any (fun p => p.1 = k) = false →
      (setWeather cfg now k d l).length = cfg.maxSize) := by
  constructor
  · unfold setWeather
    by_cases hcap : cfg.maxSize ≤ l.length
    · have hlen : l.length = cfg.maxSize := Nat.le_antisymm h2 hcap
      have hne : l ≠ [] := by
        intro habs
        rw [habs] at hlen
        simp at hlen
        omega
      obtain ⟨ok, hok⟩ := Option.isSome_iff_exists.mp (oldestKey_isSome l hne)
      have hoktruthy : ¬ ok = "" := by
        obtain ⟨p, hp, hpk⟩ := oldestKey_mem l ok hok
        rw [← hpk]
        exact hkeys p hp
      rw [if_pos hcap, hok]
      simp only []
      rw [if_neg hoktruthy]
      have hdel := length_mapDelete_lt l ok (oldestKey_mem l ok hok)
      calc (mapSet (mapDelete l ok) k _).length
          ≤ (mapDelete l ok).length + 1 := length_mapSet_le _ _ _
        _ ≤ l.length := by omega
        _ = cfg.maxSize := hlen
    · rw [if_neg hcap]
      calc (mapSet l k _).length ≤ l.length + 1 := length_mapSet_le _ _ _
        _ ≤ cfg.maxSize := by omega
  · intro hlen hnd hnew
    unfold setWeather
    have hcap : cfg.maxSize ≤ l.length := le_of_eq hlen.symm
    have hne : l ≠ [] := by
      intro habs
      rw [habs] at hlen
      simp at hlen
      omega
    obtain ⟨ok, hok⟩ := Option.isSome_iff_exists.mp (oldestKey_isSome l hne)
    have hoktruthy : ¬ ok = "" := by
      obtain ⟨p, hp, hpk⟩ := oldestKey_mem l ok hok
      rw [← hpk]
      exact hkeys p hp
    rw [if_pos hcap, hok]
    simp only []
    rw [if_neg hoktruthy]
    rw [length_mapSet_new _ _ _ (any_mapDelete_false l ok k hnew)]
    have := length_mapDelete_nodup l ok hnd (oldestKey_mem l ok hok)
    omega

/-- Witness for `size_bound`: a 2-entry cache at capacity `maxSize = 2`,
with nonempty keys, inserting the fresh key `"c"`. -/
theorem size_bound_witness :
    (1 : Nat) ≤ 2 ∧
    (setWeather ⟨30, 2⟩ 5 "c" (9 : Nat)
        [("a", ⟨1, 0, 30⟩), ("b", ⟨2, 1, 30⟩)]).length ≤ 2 := by
  refine ⟨by decide, ?_⟩
  exact (size_bound ⟨30, 2⟩ 5 "c" 9 [("a", ⟨1, 0, 30⟩), ("b", ⟨2, 1, 30⟩)]
    (by decide) (by decide) (by decide)).1

/-- C3 counterexample, two failures of the claim. First, with `maxSize = 2`
and the cache at capacity holding `"a"` (older) and `"b"`, a `setWeather` of
the *already present* key `"b"` still evicts the least-recently-touched entry
`"a"` — "set of a key already present only overwrites in place and evicts
nothing" fails. Second, with `maxSize = 1` and the cache holding the key
`""`, the truthiness guard `if (oldestKey)` skips the eviction and a set of
the new key `"x"` leaves 2 entries — "the number of entries never exceeds
maxSize after any call" fails. -/
theorem lru_overwrite_evicts :
    ((setWeather ⟨30, 2⟩ 1 "b" (0 : Nat) (setWeather ⟨30, 2⟩ 0 "a" 0 [])).length = 2 ∧
     mapGet (setWeather ⟨30, 2⟩ 1 "b" (0 : Nat) (setWeather ⟨30, 2⟩ 0 "a" 0 [])) "a" ≠ none ∧
     mapGet (setWeather ⟨30, 2⟩ 2 "b" (1 : Nat)
       (setWeather ⟨30, 2⟩ 1 "b" (0 : Nat) (setWeather ⟨30, 2⟩ 0 "a" 0 []))) "a" = none) ∧
    (setWeather ⟨30, 1⟩ 1 "x" (0 : Nat) (setWeather ⟨30, 1⟩ 0 "" 0 [])).length = 2 := by
  decide

theorem find?_map_keyfix {α : Type} (g : (String × CacheEntry α) → String × CacheEntry α)
    (hg : ∀ p, (g p).1 = p.1) (k : String) :
    ∀ l : CacheMap α,
      (l.map g).find? (fun p => p.1 = k) =
        Option.map g (l.find? fun p => p.1 = k) := by
  intro l
  induction l with
  | nil => rfl
  | cons p t ih =>
    by_cases h : p.1 = k
    · have hgp : (g p).1 = k := by rw [hg p, h]
      simp [List.find?, h, hgp]
    · have hgp : ¬ (g p).1 = k := by rw [hg p]; exact h
      simp only [List.map_cons, List.find?]
      rw [show (decide ((g p).1 = k)) = false by simpa using hgp,
        show (decide (p.1 = k)) = false by simpa using h]
      exact ih

theorem find?_filter_keep {α : Type} (pf : (String × CacheEntry α) → Bool)
    (k : String) (q : String × CacheEntry α) :
    ∀ l : CacheMap α, l.find? (fun p => p.1 = k) = some q → pf q = true →
      (l.filter pf).find? (fun p => p.1 = k) = some q := by
  intro l
  induction l with
  | nil => intro h _; cases h
  | cons p t ih =>
    intro h hq
    by_cases hpk : p.1 = k
    · have : p = q := by
        simpa [List.find?, hpk] using h
      subst this
      rw [List.filter_cons, if_pos hq]
      simp [List.find?, hpk]
    · have h' : t.find? (fun p => p.1 = k) = some q := by
        simpa [List.find?, hpk] using h
      rw [List.filter_cons]
      by_cases hpf : pf p = true
      · rw [if_pos hpf]
        simp only [List.find?]
        rw [show (decide (p.1 = k)) = false by simpa using hpk]
        exact ih h' hq
      · rw [if_neg hpf]
        exact ih h' hq

/-- The recency touch a cache hit performs on key `k` at time `now`. -/
theorem getWeather_hit {α : Type} (now : Nat) (k : String) (l : CacheMap α)
    (e : CacheEntry α) (hget : mapGet l k = some e)
    (hfresh : now - e.timestamp ≤ e.ttl) :
    (getWeather now k l).1 = some e.data ∧
    mapGet (getWeather now k l).2 k = some { e with timestamp := now } := by
  obtain ⟨q, hq, hq2⟩ := Option.map_eq_some'.mp hget
  have hqk : q.1 = k := by simpa using List.find?_some hq
  have hexp : ¬ e.ttl < now - e.timestamp := not_lt.mpr hfresh
  have hmain : getWeather now k l =
      (some e.data,
        l.map fun p => if p.1 = k then (p.1, { p.2 with timestamp := now }) else p) := by
    unfold getWeather
    rw [show mapGet l k = some e from hget]
    simp [hexp]
  constructor
  · rw [hmain]
  · rw [hmain]
    show mapGet (l.map fun p =>
      if p.1 = k then (p.1, { p.2 with timestamp := now }) else p) k = _
    unfold mapGet
    rw [find?_map_keyfix _ (fun p => by by_cases h : p.1 = k <;> simp [h]) k l, hq]
    simp [hqk, hq2]

theorem accessSeq_hits {α : Type} :
    ∀ (ts : List Nat) (l : CacheMap α) (k : String) (e : CacheEntry α),
      mapGet l k = some e → gapsOk e.ttl e.timestamp ts = true →
      (accessSeq k ts l).1 = ts.map fun _ => some e.data := by
  intro ts
  induction ts with
  | nil => intro l k e _ _; rfl
  | cons t ts ih =>
    intro l k e hget hgaps
    have hgap : t - e.timestamp ≤ e.ttl := by
      have := (Bool.and_eq_true _ _).mp hgaps
      simpa using this.1
    have hrest : gapsOk e.ttl t ts = true := ((Bool.and_eq_true _ _).mp hgaps).2
    obtain ⟨h1, h2⟩ := getWeather_hit t k l e hget hgap
    show (getWeather t k l).1 :: (accessSeq k ts (getWeather t k l).2).1 = _
    rw [h1, List.map_cons]
    congr 1
    exact ih (getWeather t k l).2 k { e with timestamp := t } h2 hrest

theorem cleanup_keeps {α : Type} (now : Nat) (k : String) (l : CacheMap α)
    (e : CacheEntry α) (hget : mapGet l k = some e)
    (hfresh : now - e.timestamp ≤ e.ttl) :
    mapGet (cleanup now l) k = some e := by
  obtain ⟨q, hq, hq2⟩ := Option.map_eq_some'.mp hget
  unfold cleanup mapGet
  rw [find?_filter_keep _ k q l hq (by simp [hq2, not_lt.mpr hfresh])]
  simp [hq2]

theorem reactivate_length (m : ApiKeyManager) :
    (reactivateAllKeys m).keys.length = m.keys.length := by
  simp [reactivateAllKeys]

theorem reactivate_cursor (m : ApiKeyManager) :
    (reactivateAllKeys m).currentIndex = m.currentIndex := rfl

theorem reactivate_map_key (m : ApiKeyManager) :
    (reactivateAllKeys m).keys.map (fun ks => ks.key) = m.keys.map fun ks => ks.key := by
  simp [reactivateAllKeys]

theorem reactivate_get? (m : ApiKeyManager) (i : Nat) (ks : ApiKeyStats)
    (h : m.keys.get? i = some ks) :
    (reactivateAllKeys m).keys.get? i =
      some { ks with isActive := true, errors := 0 } := by
  show (m.keys.map _).get? i = _
  rw [List.get?_map, h]
  rfl

theorem getNextKeyLoop_active_start (now fuel : Nat) (m : ApiKeyManager)
    (ks : ApiKeyStats) (hget : m.keys.get? m.currentIndex = some ks)
    (hact : ks.isActive = true) :
    getNextKeyLoop now (fuel + 1) m = some (ks.key,
      { keys := m.keys.set m.currentIndex
          { ks with requests := ks.requests + 1, lastUsed := now }
        currentIndex := (m.currentIndex + 1) % m.keys.length }) := by
  unfold getNextKeyLoop
  rw [hget]
  simp [hact]

theorem getNextKeyLoop_some_spec (now : Nat) :
    ∀ (fuel : Nat) (m : ApiKeyManager) (k : String) (m' : ApiKeyManager),
      getNextKeyLoop now fuel m = some (k, m') →
      k ∈ m.keys.map (fun ks => ks.key) ∧
      m'.keys.length = m.keys.length ∧
      m'.currentIndex < m'.keys.length := by
  intro fuel
  induction fuel with
  | zero => intro m k m' h; cases h
  | succ fuel ih =>
    intro m k m' h
    unfold getNextKeyLoop at h
    cases hget : m.keys.get? m.currentIndex with
    | none => rw [hget] at h; cases h
    | some ks =>
      rw [hget] at h
      simp only [] at h
      by_cases hact : ks.isActive = true
      · rw [if_pos hact] at h
        rw [Option.some.injEq, Prod.mk.injEq] at h
        obtain ⟨hk, hm'⟩ := h
        have hlen : 0 < m.keys.length := by
          obtain ⟨hlt, -⟩ := List.get?_eq_some.mp hget
          omega
        refine ⟨?_, ?_, ?_⟩
        · rw [← hk]
          exact List.mem_map_of_mem _ (List.get?_mem hget)
        · rw [← hm']
          exact List.length_set ..
        · rw [← hm']
          show (m.currentIndex + 1) % m.keys.length < (m.keys.set ..).length
          rw [List.length_set]
          exact Nat.mod_lt _ hlen
      · rw [if_neg hact] at h
        obtain ⟨hmem, hlen, hcur⟩ := ih _ _ _ h
        exact ⟨hmem, hlen, hcur⟩

/-- C1: `acquire` is total on every well-formed pool — for any reachable pool
state with at least one credential (the cursor is always reduced modulo the
length, so well-formedness is invariant), `getNextKey` returns a credential
drawn from the pool even when every record is inactive (via the reactivation
sweep), and the resulting state is again well-formed; the extension-side
`getNextApiKey` likewise succeeds whenever its key list is nonempty. -/
theorem acquire_total (now : Nat) (m : ApiKeyManager) (extKeys : List String)
    (i : Nat) (h1 : m.keys ≠ []) (h2 : m.currentIndex < m.keys.length)
    (h3 : extKeys ≠ []) :
    (∃ k m', getNextKey now m = some (k, m') ∧
      k ∈ m.keys.map (fun ks => ks.key) ∧
      m'.keys ≠ [] ∧ m'.currentIndex < m'.keys.length) ∧
    (extGetNextApiKey extKeys i).isSome = true := by
  constructor
  · have hlen0 : m.keys.length ≠ 0 := by
      simpa [List.length_eq_zero] using h1
    unfold getNextKey
    rw [if_neg hlen0]
    cases hloop : getNextKeyLoop now m.keys.length m with
    | some r =>
      obtain ⟨k, m'⟩ := r
      obtain ⟨hmem, hlen, hcur⟩ := getNextKeyLoop_some_spec now _ _ _ _ hloop
      refine ⟨k, m', rfl, hmem, ?_, hcur⟩
      rw [← List.length_pos]
      omega
    | none =>
      obtain ⟨ks, hget⟩ : ∃ ks, m.keys.get? m.currentIndex = some ks := by
        rw [← Option.isSome_iff_exists]
        simp [List.get?_eq_some, h2]
      have hget2 := reactivate_get? m _ _ hget
      have hlen2 : (reactivateAllKeys m).keys.length = m.keys.length :=
        reactivate_length m
      have hfuel : (reactivateAllKeys m).keys.length =
          ((reactivateAllKeys m).keys.length - 1) + 1 := by omega
      have hstep := getNextKeyLoop_active_start now
        ((reactivateAllKeys m).keys.length - 1) (reactivateAllKeys m)
        { ks with isActive := true, errors := 0 } hget2 rfl
      rw [← hfuel] at hstep
      obtain ⟨hmem, hlen', hcur'⟩ := getNextKeyLoop_some_spec now _ _ _ _ hstep
      rw [reactivate_map_key] at hmem
      refine ⟨_, _, hstep, hmem, ?_, hcur'⟩
      rw [← List.length_pos]
      omega
  · have : extKeys.length ≠ 0 := by
      simpa [List.length_eq_zero] using h3
    simp [extGetNextApiKey, this]

/-- Witness for `acquire_total`: a two-credential pool in the worst reachable
state — both records inactive — still yields a credential from the pool. -/
theorem acquire_total_witness :
    ∃ k m', getNextKey 50 poolBothDown = some (k, m') ∧
      k ∈ poolBothDown.keys.map (fun ks => ks.key) ∧
      m'.keys ≠ [] ∧ m'.currentIndex < m'.keys.length := by
  exact (acquire_total 50 poolBothDown ["x"] 0 (by decide) (by decide)
    (by decide)).1

theorem rrList_zero (N c : Nat) : rrList N c 0 = [] := rfl

theorem rrList_mod (N c M : Nat) : rrList N (c % N) M = rrList N c M := by
  unfold rrList
  apply List.map_congr_left
  intro i _
  exact Nat.mod_add_mod c N i

theorem rrList_succ (N c M : Nat) :
    rrList N c (M + 1) = (c % N) :: rrList N (c + 1) M := by
  unfold rrList
  rw [List.range_succ_eq_map, List.map_cons, List.map_map]
  congr 1
  apply List.map_congr_left
  intro i _
  show (c + (i + 1)) % N = (c + 1 + i) % N
  congr 1
  omega

theorem rrList_elem_lt (N c M : Nat) (hN : 0 < N) :
    ∀ x ∈ rrList N c M, x < N := by
  intro x hx
  obtain ⟨i, -, rfl⟩ := List.mem_map.mp hx
  exact Nat.mod_lt _ hN

theorem rrList_nodup (N c M : Nat) (h : M ≤ N) : (rrList N c M).Nodup := by
  apply List.Nodup.map_on _ (List.nodup_range M)
  intro i hi j hj hij
  rw [List.mem_range] at hi hj
  have : (c + i) % N = (c + j) % N := hij
  have hmod : i % N = j % N :=
    Nat.ModEq.add_left_cancel' c this
  rwa [Nat.mod_eq_of_lt (by omega), Nat.mod_eq_of_lt (by omega)] at hmod

theorem rrList_mem_cycle (N c j : Nat) (hN : 0 < N) (hj : j < N) :
    j ∈ rrList N c N := by
  have hcN : c % N < N := Nat.mod_lt _ hN
  refine List.mem_map.mpr ⟨(j + N - c % N) % N, List.mem_range.mpr (Nat.mod_lt _ hN), ?_⟩
  have h1 : (c + (j + N - c % N) % N) % N = (c + (j + N - c % N)) % N :=
    Nat.add_mod_mod ..
  rw [h1]
  have h2 : c + (j + N - c % N) = (j + N - c % N + c % N) + (c - c % N) := by
    have := Nat.mod_le c N
    omega
  rw [h2]
  have h3 : j + N - c % N + c % N = j + N := by omega
  rw [h3]
  have h4 : c - c % N = N * (c / N) := by
    have := Nat.div_add_mod c N
    omega
  rw [h4, Nat.add_mul_mod_self_left, Nat.add_mod_right, Nat.mod_eq_of_lt hj]

theorem rrList_count_cycle (N c j : Nat) (hN : 0 < N) (hj : j < N) :
    (rrList N c N).count j = 1 :=
  List.count_eq_one_of_mem (rrList_nodup N c N le_rfl) (rrList_mem_cycle N c j hN hj)

theorem rrList_count_le_one (N c M j : Nat) (h : M ≤ N) :
    (rrList N c M).count j ≤ 1 :=
  List.nodup_iff_count_le_one.mp (rrList_nodup N c M h) j

theorem rrList_append_cycle (N c M : Nat) :
    rrList N c (N + M) = rrList N c N ++ rrList N c M := by
  unfold rrList
  rw [List.range_add, List.map_append, List.map_map]
  congr 1
  apply List.map_congr_left
  intro i _
  show (c + (N + i)) % N = (c + i) % N
  have : c + (N + i) = (c + i) + N := by omega
  rw [this, Nat.add_mod_right]

theorem rrList_count_floor_ceil (N j : Nat) (hN : 0 < N) (hj : j < N) :
    ∀ (M c : Nat), (rrList N c M).count j = M / N ∨
      (rrList N c M).count j = (M + (N - 1)) / N := by
  intro M
  induction M using Nat.strong_induction_on with
  | _ M ih =>
    intro c
    by_cases hM : M < N
    · have hle := rrList_count_le_one N c M j (le_of_lt hM)
      rcases Nat.le_one_iff_eq_zero_or_eq_one.mp hle with h0 | h1
      · left
        rw [h0, Nat.div_eq_of_lt hM]
      · right
        have hM1 : 1 ≤ M := by
          by_contra hcon
          have : M = 0 := by omega
          subst this
          rw [rrList_zero] at h1
          simp at h1
        rw [h1]
        symm
        apply Nat.div_eq_of_lt_le
        · omega
        · omega
    · push_neg at hM
      obtain ⟨M', rfl⟩ : ∃ M', M = N + M' := ⟨M - N, by omega⟩
      rw [rrList_append_cycle, List.count_append, rrList_count_cycle N c j hN hj]
      have hrec := ih M' (by omega) c
      rcases hrec with h | h
      · left
        rw [h]
        have : N + M' = M' + N := by omega
        rw [this, Nat.add_div_right _ hN]
        omega
      · right
        rw [h]
        have : N + M' + (N - 1) = (M' + (N - 1)) + N := by omega
        rw [this, Nat.add_div_right _ hN]
        omega

theorem count_map_keyfun (f : Nat → String) (N j : Nat) (hj : j < N)
    (hinj : ∀ a, a < N → ∀ b, b < N → f a = f b → a = b) :
    ∀ l : List Nat, (∀ x ∈ l, x < N) → (l.map f).count (f j) = l.count j := by
  intro l
  induction l with
  | nil => intro _; rfl
  | cons a t iht =>
    intro hlt
    rw [List.map_cons, List.count_cons, List.count_cons,
      iht fun x hx => hlt x (List.mem_cons_of_mem _ hx)]
    congr 1
    have ha : a < N := hlt a (List.mem_cons_self _ _)
    by_cases haj : a = j
    · subst haj
      simp
    · have : ¬ f a = f j := fun hfa => haj (hinj a ha j hj hfa)
      simp [haj, this]

theorem map_set_key_eq :
    ∀ (l : List ApiKeyStats) (i : Nat) (a : ApiKeyStats),
      (∀ b, l.get? i = some b → a.key = b.key) →
      (l.set i a).map (fun ks => ks.key) = l.map fun ks => ks.key := by
  intro l
  induction l with
  | nil => intro i a _; rfl
  | cons p t iht =>
    intro i a h
    cases i with
    | zero =>
      rw [List.set_cons_zero, List.map_cons, List.map_cons, h p rfl]
    | succ i =>
      rw [List.set_cons_succ, List.map_cons, List.map_cons,
        iht i a fun b hb => h b hb]

theorem getD_key_set_eq (l : List ApiKeyStats) (i j : Nat) (a : ApiKeyStats)
    (h : ∀ b, l.get? j = some b → a.key = b.key) :
    ((l.set j a).getD i default).key = (l.getD i default).key := by
  rw [List.getD_eq_get?, List.getD_eq_get?]
  by_cases hij : j = i
  · subst hij
    rw [List.get?_set_eq]
    cases hgj : l.get? j with
    | none => rfl
    | some b =>
      show (((fun _ => a) <$> some b).getD default).key = ((some b).getD default).key
      simp [h b hgj]
  · rw [List.get?_set_ne _ l hij]

/-- What one `getNextKey` does on an all-active pool: it returns the record
under the cursor and advances the cursor one position modulo the length. -/
theorem getNextKey_allActive (now : Nat) (m : ApiKeyManager) (ks : ApiKeyStats)
    (hact : ∀ x ∈ m.keys, x.isActive = true)
    (hget : m.keys.get? m.currentIndex = some ks) :
    getNextKey now m = some (ks.key,
      { keys := m.keys.set m.currentIndex
          { ks with requests := ks.requests + 1, lastUsed := now }
        currentIndex := (m.currentIndex + 1) % m.keys.length }) := by
  have hlen : 0 < m.keys.length := by
    obtain ⟨hlt, -⟩ := List.get?_eq_some.mp hget
    omega
  have hfuel : (m.keys.length - 1) + 1 = m.keys.length := by omega
  unfold getNextKey
  rw [if_neg (by omega)]
  have hstep := getNextKeyLoop_active_start now (m.keys.length - 1) m ks hget
    (hact ks (List.get?_mem hget))
  rw [hfuel] at hstep
  rw [hstep]

theorem acquireList_allActive (now : Nat) :
    ∀ (M : Nat) (m : ApiKeyManager),
      (∀ x ∈ m.keys, x.isActive = true) → m.currentIndex < m.keys.length →
      acquireList now M m =
        (rrList m.keys.length m.currentIndex M).map
          fun i => (m.keys.getD i default).key := by
  intro M
  induction M with
  | zero => intro m _ _; rfl
  | succ M ih =>
    intro m hact hcur
    have hlen : 0 < m.keys.length := by omega
    obtain ⟨ks, hget⟩ : ∃ ks, m.keys.get? m.currentIndex = some ks := by
      rw [← Option.isSome_iff_exists]
      simp [List.get?_eq_some, hcur]
    have hstep := getNextKey_allActive now m ks hact hget
    show (match getNextKey now m with
      | none => []
      | some (k, m') => k :: acquireList now M m') = _
    rw [hstep]
    simp only []
    set m' : ApiKeyManager :=
      { keys := m.keys.set m.currentIndex
          { ks with requests := ks.requests + 1, lastUsed := now }
        currentIndex := (m.currentIndex + 1) % m.keys.length } with hm'
    have hkeycongr : ∀ b, m.keys.get? m.currentIndex = some b →
        ({ ks with requests := ks.requests + 1, lastUsed := now } : ApiKeyStats).key
          = b.key := by
      intro b hb
      rw [hget] at hb
      injection hb with hb
      rw [hb]
    have hact' : ∀ x ∈ m'.keys, x.isActive = true := by
      intro x hx
      rcases List.mem_or_eq_of_mem_set hx with hmem | rfl
      · exact hact x hmem
      · exact hact ks (List.get?_mem hget)
    have hlen' : m'.keys.length = m.keys.length := List.length_set ..
    have hcur' : m'.currentIndex < m'.keys.length := by
      rw [hlen']
      exact Nat.mod_lt _ hlen
    rw [ih m' hact' hcur']
    rw [rrList_succ, List.map_cons]
    congr 1
    · show ks.key = (m.keys.getD (m.currentIndex % m.keys.length) default).key
      rw [Nat.mod_eq_of_lt hcur, List.getD_eq_get?, hget]
      rfl
    · rw [hlen', show m'.currentIndex = (m.currentIndex + 1) % m.keys.length from rfl,
        rrList_mod]
      apply List.map_congr_left
      intro i _
      exact getD_key_set_eq m.keys i m.currentIndex _ hkeycongr

theorem keyfun_inj (m : ApiKeyManager)
    (hnd : (m.keys.map fun ks => ks.key).Nodup) :
    ∀ a, a < m.keys.length → ∀ b, b < m.keys.length →
      (m.keys.getD a default).key = (m.keys.getD b default).key → a = b := by
  intro a ha b hb hab
  have hlen : (m.keys.map fun ks => ks.key).length = m.keys.length :=
    List.length_map ..
  have hga : (m.keys.map fun ks => ks.key).get ⟨a, by omega⟩ =
      (m.keys.getD a default).key := by
    rw [List.get_map, List.getD_eq_get _ _ ha]
  have hgb : (m.keys.map fun ks => ks.key).get ⟨b, by omega⟩ =
      (m.keys.getD b default).key := by
    rw [List.get_map, List.getD_eq_get _ _ hb]
  have hkey : (m.keys.map fun ks => ks.key).get ⟨a, by omega⟩ =
      (m.keys.map fun ks => ks.key).get ⟨b, by omega⟩ := by
    rw [hga, hgb]
    exact hab
  have h2 := (List.Nodup.get_inj_iff hnd).mp hkey
  simpa using h2

/-! ## Claim theorems -/

/-- C6: round-robin fairness. On a pool whose records are all active and
whose credentials are pairwise distinct, over any `M` consecutive
acquisitions each credential is returned either `⌊M/N⌋` or `⌈M/N⌉` times
(`⌈M/N⌉ = (M + (N-1)) / N`), and each acquisition advances the cursor exactly
one position modulo `N`. -/
theorem round_robin_fair (now M j : Nat) (m : ApiKeyManager)
    (hact : ∀ x ∈ m.keys, x.isActive = true)
    (hcur : m.currentIndex < m.keys.length)
    (hnd : (m.keys.map fun ks => ks.key).Nodup)
    (hj : j < m.keys.length) :
    ((acquireList now M m).count ((m.keys.getD j default).key) = M / m.keys.length ∨
     (acquireList now M m).count ((m.keys.getD j default).key) =
       (M + (m.keys.length - 1)) / m.keys.length) ∧
    (∀ k m', getNextKey now m = some (k, m') →
      m'.currentIndex = (m.currentIndex + 1) % m.keys.length) := by
  have hN : 0 < m.keys.length := by omega
  constructor
  · rw [acquireList_allActive now M m hact hcur]
    rw [count_map_keyfun _ m.keys.length j hj (keyfun_inj m hnd) _
      (rrList_elem_lt _ _ _ hN)]
    exact rrList_count_floor_ceil m.keys.length j hN hj M m.currentIndex
  · intro k m' hk
    obtain ⟨ks, hget⟩ : ∃ ks, m.keys.get? m.currentIndex = some ks := by
      rw [← Option.isSome_iff_exists]
      simp [List.get?_eq_some, hcur]
    rw [getNextKey_allActive now m ks hact hget] at hk
    injection hk with hk
    injection hk with hk1 hk2
    rw [← hk2]

/-- Witness for `round_robin_fair`: over 5 acquisitions on a fresh 2-key pool
the first credential is returned 2 (= ⌊5/2⌋) or 3 (= ⌈5/2⌉) times. -/
theorem round_robin_fair_witness :
    (acquireList 0 5 (initManager ["a", "b"])).count "a" = 2 ∨
    (acquireList 0 5 (initManager ["a", "b"])).count "a" = 3 := by
  have h := (round_robin_fair 0 5 0 (initManager ["a", "b"])
    (by decide) (by decide) (by decide) (by decide)).1
  simpa using h

/-- C2: self-healing scenario. Starting from a pool of 2 credentials, after 5
reported failures on each credential `activeKeys = 0`; a single subsequent
`getNextKey` succeeds, returns one of the two original credential strings,
and immediately afterwards both records are active with `errors = 0`. -/
theorem self_healing_scenario :
    getActiveKeyCount poolBothDown = 0 ∧
    ∃ k m', getNextKey 1000 poolBothDown = some (k, m') ∧
      (k = "keyA" ∨ k = "keyB") ∧
      getActiveKeyCount m' = 2 ∧
      (m'.keys.all fun ks => ks.errors == 0) = true := by
  refine ⟨by decide, "keyA",
    ⟨[⟨"keyA", 1, 1000, 0, true⟩, ⟨"keyB", 0, 0, 0, true⟩], 1⟩,
    by decide, Or.inl rfl, by decide, by decide⟩

/-- C5 counterexample: in the `ClientCache` variant with a forecast category,
city-name keys are **not** lower-cased or trimmed — `getWeatherKey(" Dhaka ",
"metric")` and `getWeatherKey("dhaka", "metric")` derive different keys, so
the claim's first equation fails on that implementation. -/
theorem p4_city_key_not_normalized :
    p4GetWeatherKey " Dhaka " "metric" ≠ p4GetWeatherKey "dhaka" "metric" := by
  decide

/-- C5 (amended): the extension cache (`apps/extension/src/utils/cache.ts`)
lower-cases and trims city keys, so its Dhaka equation holds; coordinate keys
are rounded before concatenation (3 decimal places in the extension cache, 4
in the forecast-category cache), so both coordinate equations hold; the
forecast-category cache concatenates the city verbatim. -/
theorem key_normalization_amended :
    extGetWeatherKey " Dhaka " "metric" = extGetWeatherKey "dhaka" "metric" ∧
    extGetGeocodeKey 23.81034 90.41256 = extGetGeocodeKey 23.8103 90.4126 ∧
    p4GetGeocodeKey 23.81034 90.41256 = p4GetGeocodeKey 23.8103 90.4126 := by
  refine ⟨by decide, ?_, ?_⟩
  · unfold extGetGeocodeKey
    rw [toFixedScaled_3_lat.1, toFixedScaled_3_lat.2,
      toFixedScaled_3_lon.1, toFixedScaled_3_lon.2]
  · unfold p4GetGeocodeKey
    rw [toFixedScaled_4_lat.1, toFixedScaled_4_lat.2,
      toFixedScaled_4_lon.1, toFixedScaled_4_lon.2]

/-- C10: a cache hit rewrites the entry's stored timestamp to the current
time, and that same field drives both `getWeather`'s and `cleanup`'s expiry
test; hence an entry accessed at intervals no longer than its `ttl` is served
on every access (arbitrarily long after the original insertion), and
`cleanup` never removes it while fresh. -/
theorem sliding_expiry {α : Type} (now : Nat) (k : String) (l : CacheMap α)
    (e : CacheEntry α) (ts : List Nat) (hget : mapGet l k = some e) :
    (now - e.timestamp ≤ e.ttl →
      (getWeather now k l).1 = some e.data ∧
      mapGet (getWeather now k l).2 k = some { e with timestamp := now } ∧
      mapGet (cleanup now l) k = some e) ∧
    (gapsOk e.ttl e.timestamp ts = true →
      (accessSeq k ts l).1 = ts.map fun _ => some e.data) := by
  constructor
  · intro hfresh
    obtain ⟨h1, h2⟩ := getWeather_hit now k l e hget hfresh
    exact ⟨h1, h2, cleanup_keeps now k l e hget hfresh⟩
  · intro hgaps
    exact accessSeq_hits ts l k e hget hgaps

/-- Witness for `sliding_expiry`: an entry stored at time 0 with a 10 ms TTL
is accessed at times 8, 16, 24 and 30 — every access hits, although the last
one happens 30 ms after insertion, three times the TTL. -/
theorem sliding_expiry_witness :
    (accessSeq "a" [8, 16, 24, 30] [("a", (⟨5, 0, 10⟩ : CacheEntry Nat))]).1 =
      [some 5, some 5, some 5, some 5] := by
  have h := (sliding_expiry 7 "a" [("a", (⟨5, 0, 10⟩ : CacheEntry Nat))]
    ⟨5, 0, 10⟩ [8, 16, 24, 30] (by decide)).2 (by decide)
  simpa using h

/-- C9: retry/backoff policy of `fetchWithRetry`. A received HTTP response —
2xx or not — is returned immediately with no retry (validation and not-found
outcomes are plain responses, so they are never retried); a transport-level
rejection is retried up to 3 times with delays of 1000 ms, 2000 ms and
4000 ms, after which the error is surfaced. -/
theorem retry_backoff (oracle : Oracle) :
    (∀ r, oracle 0 = some r →
      fetchWithRetry oracle 0 MAX_RETRIES = (Except.ok r, [])) ∧
    (∀ j r, j ≤ MAX_RETRIES → (∀ i, i < j → oracle i = none) → oracle j = some r →
      fetchWithRetry oracle 0 MAX_RETRIES =
        (Except.ok r, (List.range j).map fun i => 2 ^ i * 1000)) ∧
    ((∀ i, i ≤ MAX_RETRIES → oracle i = none) →
      fetchWithRetry oracle 0 MAX_RETRIES = (Except.error (), [1000, 2000, 4000])) := by
  refine ⟨?_, ?_, ?_⟩
  · intro r h
    simp [fetchWithRetry, MAX_RETRIES, h]
  · intro j r hj hnone hsome
    rw [show MAX_RETRIES = 3 from rfl] at hj
    interval_cases j
    · simp [fetchWithRetry, MAX_RETRIES, hsome]
    · have h0 := hnone 0 (by omega)
      simp [fetchWithRetry, MAX_RETRIES, h0, hsome]
      try norm_num [List.range_succ]
    · have h0 := hnone 0 (by omega)
      have h1 := hnone 1 (by omega)
      simp [fetchWithRetry, MAX_RETRIES, h0, h1, hsome]
      try norm_num [List.range_succ]
    · have h0 := hnone 0 (by omega)
      have h1 := hnone 1 (by omega)
      have h2 := hnone 2 (by omega)
      simp [fetchWithRetry, MAX_RETRIES, h0, h1, h2, hsome]
      try norm_num [List.range_succ]
  · intro h
    have h0 := h 0 (by norm_num [MAX_RETRIES])
    have h1 := h 1 (by norm_num [MAX_RETRIES])
    have h2 := h 2 (by norm_num [MAX_RETRIES])
    have h3 := h 3 (by norm_num [MAX_RETRIES])
    simp [fetchWithRetry, MAX_RETRIES, h0, h1, h2, h3]
    try norm_num

/-- Witness for `retry_backoff`: a network that rejects the first two
attempts and delivers a 200 response on the third is retried with 1 s and
2 s delays; a network that always rejects exhausts the 1 s, 2 s, 4 s budget
and surfaces the error. -/
theorem retry_backoff_witness :
    fetchWithRetry (fun i => if i = 2 then some ⟨200⟩ else none) 0 MAX_RETRIES =
      (Except.ok ⟨200⟩, [1000, 2000]) ∧
    fetchWithRetry (fun _ => none) 0 MAX_RETRIES =
      (Except.error (), [1000, 2000, 4000]) := by
  constructor
  · have h := (retry_backoff fun i => if i = 2 then some ⟨200⟩ else none).2.1
      2 ⟨200⟩ (by norm_num [MAX_RETRIES])
      (by intro i hi; interval_cases i <;> rfl) (by rfl)
    simpa [List.range_succ] using h
  · exact (retry_backoff fun _ => none).2.2 fun i _ => rfl

/-- C7 counterexample: on the weather route's 404 branch the handler acquires
a credential and then completes the request without invoking either
`recordSuccess` or `recordError`, so the acquire is not paired with any
outcome report (the claim requires exactly one). -/
theorem pairing_counterexample :
    acquiresFor "k" (weatherGET true true "k" (.resp 404 true)).events = 1 ∧
    reportsFor "k" (weatherGET true true "k" (.resp 404 true)).events = 0 ∧
    acquiresFor "k" (weatherGET true true "k" (.thrown true)).events = 1 ∧
    reportsFor "k" (weatherGET true true "k" (.thrown true)).events = 0 := by
  decide

/-- C7 (amended): on every request path of both route handlers the acquired
credential receives exactly one outcome report — except on the 404
(not-found) branch and on the thrown path (timeout/abort/transport failure),
where it receives none; paths that do not acquire report nothing. -/
theorem pairing_amended (rateOk inputOk : Bool) (k : String) (up : Upstream) :
    acquiresFor k (weatherGET rateOk inputOk k up).events =
      (if rateOk && inputOk then 1 else 0) ∧
    reportsFor k (weatherGET rateOk inputOk k up).events =
      (if rateOk && inputOk && !(isNotFound up) && !(isThrown up) then 1 else 0) ∧
    acquiresFor k (forecastGET rateOk inputOk k up).events =
      (if rateOk && inputOk then 1 else 0) ∧
    reportsFor k (forecastGET rateOk inputOk k up).events =
      (if rateOk && inputOk && !(isNotFound up) && !(isThrown up) then 1 else 0) := by
  cases rateOk <;> cases inputOk <;>
    cases up with
    | thrown aborted =>
      simp [weatherGET, forecastGET, acquiresFor, reportsFor, isNotFound, isThrown]
    | resp s valid =>
      by_cases h401 : s = 401 <;> by_cases h404 : s = 404 <;>
        by_cases h429 : s = 429 <;> by_cases h500 : s = 500 <;>
        by_cases hok : httpOk s <;> cases valid <;>
        simp_all [weatherGET, forecastGET, acquiresFor, reportsFor,
          isNotFound, isThrown]

/-- C8 counterexample: the weather route's 404 response carries no caching
directive at all, so the "negative result is cached briefly (5 minutes)"
part of the claim fails on that route (the no-penalty and no-retry parts do
hold there). -/
theorem notfound_cache_counterexample :
    (weatherGET true true "k" (.resp 404 true)).status = 404 ∧
    (weatherGET true true "k" (.resp 404 true)).cacheSeconds = none := by
  decide

/-- C8 (amended): on an upstream 404 neither route reports any outcome for
the acquired credential (so replaying the transcript against any pool leaves
it unchanged — no penalty), neither route retries, and the forecast route —
but not the weather route — serves the negative result with a 300-second
(5-minute) cache lifetime. -/
theorem notfound_amended (k : String) (valid : Bool) :
    (forecastGET true true k (.resp 404 valid)).status = 404 ∧
    (forecastGET true true k (.resp 404 valid)).cacheSeconds = some 300 ∧
    reportsFor k (forecastGET true true k (.resp 404 valid)).events = 0 ∧
    (weatherGET true true k (.resp 404 valid)).status = 404 ∧
    (weatherGET true true k (.resp 404 valid)).cacheSeconds = none ∧
    reportsFor k (weatherGET true true k (.resp 404 valid)).events = 0 ∧
    (∀ m : ApiKeyManager,
      applyReports m (forecastGET true true k (.resp 404 valid)).events = m ∧
      applyReports m (weatherGET true true k (.resp 404 valid)).events = m) := by
  refine ⟨?_, ?_, ?_, ?_, ?_, ?_, ?_⟩ <;>
    simp [forecastGET, weatherGET, reportsFor, applyReports, ERROR_CACHE_DURATION]

end Weather

